import Mathlib

/-!
Verification of the Premier League sentiment pipeline
(`data_sources.py`, `main.py`) against its specification.

Strings are modelled as `List Char`; Python float arithmetic is modelled
over `ℚ`; the external NLP service, the RSS fetchers and the document
store are oracles passed in as parameters.  All definitions are direct
transcriptions of the corresponding Python functions, with the Python
name kept wherever Lean allows.
-/

namespace PLSent

/-- Lowercasing of a modelled string, character by character
(models Python `str.lower` on the ASCII texts this pipeline handles). -/
def lowerStr (s : List Char) : List Char := s.map Char.toLower

/-- Boolean test that `v` is a leading segment of `w`
(models Python `str.startswith`, used to build the substring test). -/
def leadSeg : List Char → List Char → Bool
  | [], _ => true
  | _ :: _, [] => false
  | a :: as, b :: bs => a == b && leadSeg as bs

/-- Boolean test that `v` occurs contiguously inside `w`
(models the Python substring operator `v in w`). -/
def containsSeg (v : List Char) : List Char → Bool
  | [] => v.isEmpty
  | b :: bs => leadSeg v (b :: bs) || containsSeg v bs

/-- Characterisation of `leadSeg`: it decides existence of a completing tail. -/
theorem leadSeg_iff : ∀ (v w : List Char), leadSeg v w = true ↔ ∃ t, v ++ t = w
  | [], w => by simp [leadSeg]
  | a :: as, [] => by simp [leadSeg]
  | a :: as, b :: bs => by
    simp only [leadSeg, Bool.and_eq_true, beq_iff_eq, List.cons_append, List.cons.injEq]
    rw [leadSeg_iff as bs]
    constructor
    · rintro ⟨rfl, t, rfl⟩
      exact ⟨t, rfl, rfl⟩
    · rintro ⟨t, rfl, rfl⟩
      exact ⟨rfl, t, rfl⟩

/-- Characterisation of `containsSeg`: it decides existence of a
surrounding decomposition, i.e. the contiguous-substring relation. -/
theorem containsSeg_iff : ∀ (w v : List Char),
    containsSeg v w = true ↔ ∃ s t, s ++ (v ++ t) = w
  | [], v => by
    simp [containsSeg, List.isEmpty_iff, List.append_eq_nil]
  | b :: bs, v => by
    simp only [containsSeg, Bool.or_eq_true]
    rw [leadSeg_iff, containsSeg_iff bs v]
    constructor
    · rintro (⟨t, ht⟩ | ⟨s, t, hst⟩)
      · exact ⟨[], t, by simpa using ht⟩
      · exact ⟨b :: s, t, by simp [hst]⟩
    · rintro ⟨s, t, h⟩
      cases s with
      | nil => exact Or.inl ⟨t, by simpa using h⟩
      | cons c s' =>
        simp only [List.cons_append] at h
        injection h with h1 h2
        subst h1
        exact Or.inr ⟨s', t, h2⟩

/-- If `v` occurs inside `w` and `w` occurs inside `u`, then `v` occurs
inside `u` (transitivity of the substring relation). -/
theorem containsSeg_trans {v w u : List Char}
    (h₁ : containsSeg v w = true) (h₂ : containsSeg w u = true) :
    containsSeg v u = true := by
  rw [containsSeg_iff] at h₁ h₂ ⊢
  obtain ⟨s₁, t₁, rfl⟩ := h₁
  obtain ⟨s₂, t₂, rfl⟩ := h₂
  exact ⟨s₂ ++ s₁, t₁ ++ t₂, by simp⟩

/-- Accumulator loop of whitespace tokenisation (models Python
`str.split()` with no separator: split on whitespace runs, drop empties).
`acc` holds the characters of the current token in reverse. -/
def splitWsAux : List Char → List Char → List (List Char)
  | [], acc => if acc.isEmpty then [] else [acc.reverse]
  | c :: cs, acc =>
    if c.isWhitespace then
      if acc.isEmpty then splitWsAux cs [] else acc.reverse :: splitWsAux cs []
    else splitWsAux cs (c :: acc)

/-- Whitespace tokenisation of a modelled string (Python `text.split()`). -/
def splitWs (s : List Char) : List (List Char) := splitWsAux s []

/-- Every token produced by the tokenisation loop occurs contiguously in
`acc.reverse ++ s`, the text it was cut from. -/
theorem splitWsAux_token_sub : ∀ (s acc w : List Char), w ∈ splitWsAux s acc →
    ∃ a b, a ++ (w ++ b) = acc.reverse ++ s
  | [], acc, w => by
    intro hw
    rw [splitWsAux] at hw
    by_cases h : acc.isEmpty
    · rw [if_pos h] at hw
      exact absurd hw (List.not_mem_nil w)
    · rw [if_neg h] at hw
      rcases List.mem_singleton.mp hw with rfl
      exact ⟨[], [], by simp⟩
  | c :: cs, acc, w => by
    intro hw
    rw [splitWsAux] at hw
    by_cases hws : c.isWhitespace
    · rw [if_pos hws] at hw
      by_cases hacc : acc.isEmpty
      · rw [if_pos hacc] at hw
        obtain ⟨a, b, hab⟩ := splitWsAux_token_sub cs [] w hw
        simp only [List.reverse_nil, List.nil_append] at hab
        rw [List.isEmpty_iff] at hacc
        exact ⟨c :: a, b, by simp [hacc, hab]⟩
      · rw [if_neg hacc] at hw
        rcases List.mem_cons.mp hw with rfl | hw'
        · exact ⟨[], c :: cs, by simp⟩
        · obtain ⟨a, b, hab⟩ := splitWsAux_token_sub cs [] w hw'
          simp only [List.reverse_nil, List.nil_append] at hab
          exact ⟨acc.reverse ++ c :: a, b, by simp [hab]⟩
    · rw [if_neg hws] at hw
      obtain ⟨a, b, hab⟩ := splitWsAux_token_sub cs (c :: acc) w hw
      exact ⟨a, b, by simpa using hab⟩
  termination_by s => s.length

/-- No token produced by the tokenisation loop contains a whitespace
character, given the accumulator contains none. -/
theorem splitWsAux_no_ws : ∀ (s acc : List Char),
    (∀ c ∈ acc, c.isWhitespace = false) →
    ∀ w ∈ splitWsAux s acc, ∀ c ∈ w, c.isWhitespace = false
  | [], acc, hacc, w => by
    intro hw
    rw [splitWsAux] at hw
    by_cases h : acc.isEmpty
    · rw [if_pos h] at hw
      exact absurd hw (List.not_mem_nil w)
    · rw [if_neg h] at hw
      rcases List.mem_singleton.mp hw with rfl
      intro c hc
      exact hacc c (List.mem_reverse.mp hc)
  | c :: cs, acc, hacc, w => by
    intro hw
    rw [splitWsAux] at hw
    by_cases hws : c.isWhitespace
    · rw [if_pos hws] at hw
      by_cases haccE : acc.isEmpty
      · rw [if_pos haccE] at hw
        exact splitWsAux_no_ws cs [] (by simp) w hw
      · rw [if_neg haccE] at hw
        rcases List.mem_cons.mp hw with rfl | hw'
        · intro d hd
          exact hacc d (List.mem_reverse.mp hd)
        · exact splitWsAux_no_ws cs [] (by simp) w hw'
    · rw [if_neg hws] at hw
      refine splitWsAux_no_ws cs (c :: acc) ?_ w hw
      intro d hd
      rcases List.mem_cons.mp hd with rfl | hd'
      · simpa using hws
      · exact hacc d hd'
  termination_by s => s.length

/-- Every token of `splitWs s` occurs contiguously inside `s`. -/
theorem splitWs_token_sub {s w : List Char} (h : w ∈ splitWs s) :
    containsSeg w s = true := by
  obtain ⟨a, b, hab⟩ := splitWsAux_token_sub s [] w h
  rw [containsSeg_iff]
  exact ⟨a, b, by simpa using hab⟩

/-- No token of `splitWs s` contains a whitespace character. -/
theorem splitWs_no_ws {s w : List Char} (h : w ∈ splitWs s) :
    ∀ c ∈ w, c.isWhitespace = false :=
  splitWsAux_no_ws s [] (by simp) w h

/-- An article record as produced by the feed fetchers in
`data_sources.py` (`text`/`source`, the `published`/`link` strings are
carried along but never read by the pipeline). -/
structure Post where
  text : List Char
  source : String
  published : String
  link : String
  deriving DecidableEq

/-- Per-variation body of the matching loop in
`data_sources.filter_posts_by_team`: the raw substring check
`variation_lower in text_lower` followed by the token scan
`for word in words: if variation_lower in word`.  `tl` is the lowercased
article text, `words` its whitespace tokens, `vl` the lowercased
variation. -/
def variationFound (tl : List Char) (words : List (List Char)) (vl : List Char) : Bool :=
  containsSeg vl tl && words.any (fun w => containsSeg vl w)

/-- Whether any team variation matches the article text — the per-post
condition computed by the loop in `data_sources.filter_posts_by_team`
(text lowercased once, tokens computed from it). -/
def postMatches (team_variations : List (List Char)) (t : List Char) : Bool :=
  team_variations.any
    (fun v => variationFound (lowerStr t) (splitWs (lowerStr t)) (lowerStr v))

/-- The team-attribution filter `data_sources.filter_posts_by_team`:
keeps the posts whose text matches some variation, in order.  The
`team_name` argument is carried but unused, as in the source. -/
def filter_posts_by_team (posts : List Post) (team_name : String)
    (team_variations : List (List Char)) : List Post :=
  posts.filter (fun p => postMatches team_variations p.text)

/-- Formalises the spec's wording of the attribution policy: some
variant, lowercased, occurs as a substring of some whitespace-delimited
token of the lowercased article text. -/
def specTokenAttribution (team_variations : List (List Char)) (t : List Char) : Bool :=
  team_variations.any
    (fun v => (splitWs (lowerStr t)).any (fun w => containsSeg (lowerStr v) w))

/-- The redundant whole-text substring guard of the source collapses:
the per-variation condition equals the bare token scan. -/
theorem variationFound_eq (tl vl : List Char) :
    variationFound tl (splitWs tl) vl = (splitWs tl).any (fun w => containsSeg vl w) := by
  unfold variationFound
  cases h : (splitWs tl).any (fun w => containsSeg vl w) with
  | false => simp [h]
  | true =>
    rw [Bool.and_true]
    rw [List.any_eq_true] at h
    obtain ⟨w, hw, hc⟩ := h
    exact containsSeg_trans hc (splitWs_token_sub hw)

/-- The per-post condition of the source filter agrees with the spec's
token-attribution predicate. -/
theorem postMatches_eq_spec (team_variations : List (List Char)) (t : List Char) :
    postMatches team_variations t = specTokenAttribution team_variations t := by
  unfold postMatches specTokenAttribution
  induction team_variations with
  | nil => rfl
  | cons v vs ih => simp only [List.any_cons, ih, variationFound_eq]

/-- The Premier League roster with name variations, transcribed from
`PREMIER_LEAGUE_TEAMS` in `main.py` (an insertion-ordered dict there,
modelled as an association list). -/
def PREMIER_LEAGUE_TEAMS : List (String × List String) := [
  ("Manchester City", ["Manchester City", "Man City", "MCFC", "City"]),
  ("Arsenal", ["Arsenal", "Gunners", "AFC"]),
  ("Liverpool", ["Liverpool", "LFC", "Reds"]),
  ("Manchester United", ["Manchester United", "Man United", "Man Utd", "MUFC", "United"]),
  ("Chelsea", ["Chelsea", "CFC", "Blues"]),
  ("Tottenham", ["Tottenham", "Spurs", "THFC"]),
  ("Newcastle", ["Newcastle", "Newcastle United", "NUFC"]),
  ("Brighton", ["Brighton", "Brighton & Hove Albion", "Seagulls"]),
  ("Aston Villa", ["Aston Villa", "Villa", "AVFC"]),
  ("West Ham", ["West Ham", "West Ham United", "Hammers"]),
  ("Fulham", ["Fulham", "FFC"]),
  ("Brentford", ["Brentford", "Bees"]),
  ("Crystal Palace", ["Crystal Palace", "Palace", "CPFC", "Eagles"]),
  ("Nottingham Forest", ["Nottingham Forest", "Forest", "NFFC"]),
  ("Everton", ["Everton", "EFC", "Toffees"]),
  ("Bournemouth", ["Bournemouth", "AFC Bournemouth", "Cherries"]),
  ("Wolves", ["Wolves", "Wolverhampton", "Wanderers"]),
  ("Leicester", ["Leicester", "Leicester City", "LCFC", "Foxes"]),
  ("Ipswich", ["Ipswich", "Ipswich Town", "ITFC", "Tractor Boys"]),
  ("Southampton", ["Southampton", "Saints"])]

/-- Round-half-to-even to the nearest integer, the tie policy of Python's
built-in `round` (floats modelled as exact rationals). -/
def rndHalfEven (q : ℚ) : ℤ :=
  let n : ℤ := Int.fdiv q.num q.den
  let r : ℚ := q - (n : ℚ)
  if r < 1 / 2 then n
  else if 1 / 2 < r then n + 1
  else if n % 2 = 0 then n else n + 1

/-- Python's `round(q, 3)`: round to three decimal places. -/
def round3 (q : ℚ) : ℚ := ((rndHalfEven (q * 1000) : ℤ) : ℚ) / 1000

/-- The sentiment scorer `main.analyze_sentiment`: truncate the text to
1000 characters and submit it to the external NLP service, modelled as
the oracle `api`; a `none` result is the caught scoring failure. -/
def analyze_sentiment (text : List Char) (api : List Char → Option ℚ) : Option ℚ :=
  api (text.take 1000)

/-- Python `set.add` on a set modelled as a duplicate-free list in
insertion order (only membership in the set is ever observed). -/
def addSource (sources : List String) (s : String) : List String :=
  if s ∈ sources then sources else sources ++ [s]

/-- The per-club scoring loop of `main.sentiment_tracker` (lines
151-161): walk the posts, skip texts shorter than 30 characters, collect
each successfully computed score into `sents` and the post's source into
the set `srcs`. -/
def scoreLoop (api : List Char → Option ℚ) :
    List Post → List ℚ → List String → List ℚ × List String
  | [], sents, srcs => (sents, srcs)
  | p :: ps, sents, srcs =>
    if p.text.length < 30 then scoreLoop api ps sents srcs
    else
      match analyze_sentiment p.text api with
      | none => scoreLoop api ps sents srcs
      | some sc => scoreLoop api ps (sents ++ [sc]) (addSource srcs p.source)

/-- Entity record returned by the external entity extractor
(`response.entities` in `main.generate_team_summary`), with salience as
an exact rational. -/
structure Entity where
  name : List Char
  type_ : String
  salience : ℚ
  deriving DecidableEq

/-- Key-topic record assembled by `main.generate_team_summary`. -/
structure Topic where
  name : List Char
  type_ : String
  salience : ℚ
  deriving DecidableEq

/-- The `generic_terms` denylist of `main.generate_team_summary`: the
club's own lowercased name plus the fixed literal set from the source
(Python set; modelled as a list, only membership is observed). -/
def genericTerms (team_name : String) : List (List Char) :=
  lowerStr team_name.toList ::
    (["premier league", "epl", "football", "soccer",
      "match", "game", "team", "club", "player", "manager", "coach",
      "manchester city", "arsenal", "liverpool", "chelsea", "manchester united",
      "tottenham", "newcastle", "brighton", "aston villa", "west ham",
      "man city", "man united", "man utd", "spurs"].map String.toList)

/-- Topic built from a qualifying entity, salience rounded to 3 decimals
(`main.generate_team_summary`, entity append). -/
def mkTopic (e : Entity) : Topic :=
  { name := e.name, type_ := e.type_, salience := round3 e.salience }

/-- The entity-scanning loop of `main.generate_team_summary`: skip
entities whose lowercased name is in the denylist or whose name is
shorter than 4 characters; append those with salience above 0.02; stop
as soon as 3 topics are collected. -/
def entLoop (gset : List (List Char)) : List Entity → List Topic → List Topic
  | [], acc => acc
  | e :: es, acc =>
    if lowerStr e.name ∈ gset ∨ e.name.length < 4 then entLoop gset es acc
    else
      let acc' := if 1 / 50 < e.salience then acc ++ [mkTopic e] else acc
      if 3 ≤ acc'.length then acc' else entLoop gset es acc'

/-- The text submitted to the entity extractor by
`main.generate_team_summary`: the first 5 posts' texts, each truncated
to 500 characters, joined with single spaces, the whole truncated to
3000 characters. -/
def entityInput (posts : List Post) : List Char :=
  (List.intercalate [' '] ((posts.take 5).map (fun p => p.text.take 500))).take 3000

/-- Transcription of `main.generate_team_summary`: submit the combined
text to the external entity extractor (the oracle `entApi`; an `error`
result is the caught extraction failure, yielding `[]`), then scan the
first 10 returned entities with `entLoop`. -/
def generate_team_summary (posts : List Post) (team_name : String)
    (entApi : List Char → Except String (List Entity)) : List Topic :=
  match entApi (entityInput posts) with
  | .error _ => []
  | .ok ents => entLoop (genericTerms team_name) (ents.take 10) []

/-- A persisted sentiment snapshot, the document written to the
`team_sentiment` collection by `main.sentiment_tracker` (the wall-clock
`timestamp` field is environment input and is not modelled; backfill
timestamps are modelled separately in `backfillDocs`). -/
structure Snapshot where
  team : String
  avg_sentiment : ℚ
  article_count : ℕ
  sources : List String
  key_topics : List Topic
  league : String
  data_type : String
  deriving DecidableEq

/-- The per-club body of `main.sentiment_tracker` (lines 145-184): run
the scoring loop over the first 7 posts; if any scores were collected,
assemble the snapshot with the rounded mean sentiment, the article
count, the source set and the key topics; otherwise write nothing. -/
def clubProcess (api : List Char → Option ℚ)
    (entApi : List Char → Except String (List Entity))
    (team_name : String) (posts : List Post) : Option Snapshot :=
  let sp := scoreLoop api (posts.take 7) [] []
  if sp.1 = [] then none
  else some {
    team := team_name,
    avg_sentiment := round3 (sp.1.sum / (sp.1.length : ℚ)),
    article_count := sp.1.length,
    sources := sp.2,
    key_topics := generate_team_summary posts team_name entApi,
    league := "Premier League",
    data_type := "News Sentiment" }

/-- The JSON-shaped summary payload returned by `main.sentiment_tracker`. -/
structure Response where
  status : String
  teams_processed : ℕ
  total_articles : ℕ
  results : List (String × ℚ)
  deriving DecidableEq

/-- The HTTP entry point `main.sentiment_tracker`: iterate the roster;
for each club run fetch (the oracle `fetchO`, whose `error` result is
any exception escaping the club's processing, caught by the per-club
`try`/`except`) and then the per-club body; collect the written
snapshots and return the summary payload with HTTP code 200. -/
def sentiment_tracker (api : List Char → Option ℚ)
    (entApi : List Char → Except String (List Entity))
    (fetchO : String → List String → Except String (List Post)) : Response × ℕ :=
  let results := PREMIER_LEAGUE_TEAMS.foldl (fun acc tv =>
    match (fetchO tv.1 tv.2).map (fun posts => clubProcess api entApi tv.1 posts) with
    | .ok (some s) => acc ++ [s]
    | .ok none => acc
    | .error _ => acc) []
  ({ status := "success",
     teams_processed := results.length,
     total_articles := (results.map (fun r => r.article_count)).sum,
     results := results.map (fun r => (r.team, r.avg_sentiment)) }, 200)

/-- Modelled from the spec: backfill mode is described in the
specification (§4.4) but its code is not present under `src/` —
`main.py` implements only current mode (its unused `import random` is
the trace of the removed backfill variant).  Faithful to the spec's
words: "the same aggregate score is replicated across every whole hour
from that day's midnight (UTC) through the current hour, with a small
independent random perturbation (uniform in ±0.03) applied per hourly
copy".  `currentHour` is the run's hour of day; `perturb` is the random
draw for each hour; each document is (timestamp in seconds since
midnight, sentiment). -/
def backfillDocs (base : ℚ) (perturb : ℕ → ℚ) (currentHour : ℕ) : List (ℕ × ℚ) :=
  (List.range (currentHour + 1)).map (fun h => (h * 3600, base + perturb h))

/-- Per-post outcome of one iteration of the scoring loop: `none` when
the text is too short, otherwise the scorer's answer on the truncated
text. -/
def scoreOf (api : List Char → Option ℚ) (p : Post) : Option ℚ :=
  if p.text.length < 30 then none else analyze_sentiment p.text api

/-- Whether a post gets successfully scored: long enough, and the
scoring call returns a value. -/
def scoredPost (api : List Char → Option ℚ) (p : Post) : Bool :=
  decide (30 ≤ p.text.length) && (analyze_sentiment p.text api).isSome

/-- The successfully scored posts of a club's run: drawn from the first
7 attributed posts, too-short texts and failed scoring calls excluded. -/
def scoredPosts (api : List Char → Option ℚ) (posts : List Post) : List Post :=
  (posts.take 7).filter (scoredPost api)

/-- The successfully computed scores of a club's run: from the first 7
attributed posts, skipping texts shorter than 30 characters, keeping
each score the scorer returns. -/
def scoredValues (api : List Char → Option ℚ) (posts : List Post) : List ℚ :=
  ((posts.take 7).filter (fun p => decide (30 ≤ p.text.length))).filterMap
    (fun p => analyze_sentiment p.text api)

/-- The scoring loop's collected scores are the per-post outcomes of
`scoreOf`, appended to the incoming accumulator. -/
theorem scoreLoop_fst (api : List Char → Option ℚ) :
    ∀ (l : List Post) (sents : List ℚ) (srcs : List String),
    (scoreLoop api l sents srcs).1 = sents ++ l.filterMap (scoreOf api)
  | [], sents, srcs => by simp [scoreLoop]
  | p :: ps, sents, srcs => by
    rw [scoreLoop]
    by_cases h : p.text.length < 30
    · rw [if_pos h, scoreLoop_fst api ps sents srcs]
      simp [List.filterMap_cons, scoreOf, h]
    · rw [if_neg h]
      cases hA : analyze_sentiment p.text api with
      | none =>
        rw [scoreLoop_fst api ps sents srcs]
        simp [List.filterMap_cons, scoreOf, h, hA]
      | some sc =>
        rw [scoreLoop_fst api ps (sents ++ [sc]) (addSource srcs p.source)]
        simp [List.filterMap_cons, scoreOf, h, hA]

/-- Collecting the per-post outcomes equals first filtering the
long-enough posts and then scoring them. -/
theorem filterMap_scoreOf (api : List Char → Option ℚ) : ∀ l : List Post,
    l.filterMap (scoreOf api) =
      (l.filter (fun p => decide (30 ≤ p.text.length))).filterMap
        (fun p => analyze_sentiment p.text api)
  | [] => rfl
  | p :: ps => by
    by_cases h : p.text.length < 30
    · have h2 : ¬ (30 ≤ p.text.length) := by omega
      simp [List.filterMap_cons, List.filter_cons, scoreOf, h, h2, filterMap_scoreOf api ps]
    · have h2 : 30 ≤ p.text.length := by omega
      simp [List.filterMap_cons, List.filter_cons, scoreOf, h, h2, filterMap_scoreOf api ps]

/-- The scores collected by the loop over the first 7 posts are exactly
`scoredValues`. -/
theorem scoreLoop_fst_eq (api : List Char → Option ℚ) (posts : List Post) :
    (scoreLoop api (posts.take 7) [] []).1 = scoredValues api posts := by
  rw [scoreLoop_fst, filterMap_scoreOf, scoredValues, List.nil_append]

/-- Membership in the source set after a Python `set.add`. -/
theorem addSource_mem (srcs : List String) (s x : String) :
    x ∈ addSource srcs s ↔ x ∈ srcs ∨ x = s := by
  unfold addSource
  by_cases h : s ∈ srcs
  · rw [if_pos h]
    constructor
    · exact Or.inl
    · rintro (hx | rfl)
      · exact hx
      · exact h
  · rw [if_neg h]
    simp [List.mem_append]

/-- The source set collected by the scoring loop holds exactly the
incoming sources plus the sources of the successfully scored posts. -/
theorem scoreLoop_snd_mem (api : List Char → Option ℚ) (x : String) :
    ∀ (l : List Post) (sents : List ℚ) (srcs : List String),
    (x ∈ (scoreLoop api l sents srcs).2 ↔
      x ∈ srcs ∨ x ∈ (l.filter (scoredPost api)).map Post.source)
  | [], sents, srcs => by simp [scoreLoop]
  | p :: ps, sents, srcs => by
    rw [scoreLoop]
    by_cases h : p.text.length < 30
    · rw [if_pos h, scoreLoop_snd_mem api x ps sents srcs]
      have h2 : scoredPost api p = false := by
        simp [scoredPost]
        omega
      simp [List.filter_cons, h2]
    · rw [if_neg h]
      have h2 : 30 ≤ p.text.length := by omega
      cases hA : analyze_sentiment p.text api with
      | none =>
        rw [scoreLoop_snd_mem api x ps sents srcs]
        have h3 : scoredPost api p = false := by simp [scoredPost, hA]
        simp [List.filter_cons, h3]
      | some sc =>
        rw [scoreLoop_snd_mem api x ps (sents ++ [sc]) (addSource srcs p.source)]
        have h3 : scoredPost api p = true := by simp [scoredPost, hA, h2]
        rw [addSource_mem]
        simp only [List.filter_cons, h3, if_true, List.map_cons, List.mem_cons]
        tauto

/-- Lowercasing fixes whitespace characters. -/
theorem toLower_of_ws {c : Char} (h : c.isWhitespace = true) : c.toLower = c := by
  simp only [Char.isWhitespace, Bool.or_eq_true, decide_eq_true_eq] at h
  rcases h with ((rfl | rfl) | rfl) | rfl <;> decide

/-- A variation containing a whitespace character can never satisfy the
filter's per-variation condition: tokens contain no whitespace, so the
lowercased variation fits inside no token. -/
theorem variationFound_ws_false (v : List Char) (hv : v.any Char.isWhitespace = true)
    (t : List Char) :
    variationFound (lowerStr t) (splitWs (lowerStr t)) (lowerStr v) = false := by
  cases hb : variationFound (lowerStr t) (splitWs (lowerStr t)) (lowerStr v) with
  | false => rfl
  | true =>
    exfalso
    rw [variationFound_eq, List.any_eq_true] at hb
    obtain ⟨w, hw, hc⟩ := hb
    rw [List.any_eq_true] at hv
    obtain ⟨c, hcv, hcw⟩ := hv
    have hmem : c ∈ lowerStr v := by
      rw [← toLower_of_ws hcw]
      exact List.mem_map_of_mem Char.toLower hcv
    rw [containsSeg_iff] at hc
    obtain ⟨a, b, hab⟩ := hc
    have hcw2 : c ∈ w := by
      rw [← hab]
      exact List.mem_append.mpr (Or.inr (List.mem_append.mpr (Or.inl hmem)))
    have hno := splitWs_no_ws hw c hcw2
    rw [hcw] at hno
    exact Bool.noConfusion hno

/-- Dropping the whitespace-containing variations does not change the
per-post match condition. -/
theorem postMatches_filter_ws (V : List (List Char)) (t : List Char) :
    postMatches V t = postMatches (V.filter (fun u => !(u.any Char.isWhitespace))) t := by
  simp only [postMatches]
  induction V with
  | nil => rfl
  | cons u us ih =>
    by_cases hu : u.any Char.isWhitespace
    · simp [List.filter_cons, List.any_cons, hu, variationFound_ws_false u hu t, ih]
    · simp [List.filter_cons, List.any_cons, hu, ih]

/-- Claim C3: for every list of articles and every club variant list,
the team-attribution filter retains an article iff at least one variant,
lowercased, occurs as a substring of some whitespace-delimited token of
the lowercased article text (the raw whole-text substring guard in the
source is subsumed by the token scan). -/
theorem C3_attribution_iff (posts : List Post) (team_name : String)
    (team_variations : List (List Char)) :
    filter_posts_by_team posts team_name team_variations
      = posts.filter (fun p => specTokenAttribution team_variations p.text) :=
  List.filter_congr (fun p _ => postMatches_eq_spec team_variations p.text)

/-- Claim C4: the team-attribution filter returns a subsequence of its
input — retained articles keep their relative order — and removes no
duplicate occurrence: a matching article occurs in the output exactly as
often as in the input, a non-matching one not at all. -/
theorem C4_filter_subseq (posts : List Post) (team_name : String)
    (team_variations : List (List Char)) :
    List.Sublist (filter_posts_by_team posts team_name team_variations) posts
    ∧ ∀ p : Post, (filter_posts_by_team posts team_name team_variations).count p
        = if postMatches team_variations p.text then posts.count p else 0 := by
  constructor
  · exact List.filter_sublist posts
  · intro p
    by_cases h : postMatches team_variations p.text
    · rw [if_pos h]
      exact List.count_filter h
    · rw [if_neg h]
      rw [List.count_eq_zero]
      intro hm
      exact h (List.mem_filter.mp hm).2

/-- Claim C9: a variant that contains whitespace (such as
"Manchester United") can never cause an article to be retained, because
no whitespace-delimited token contains it; attribution therefore depends
only on the whitespace-free variants. -/
theorem C9_whitespace_variant (v : List Char) (hv : v.any Char.isWhitespace = true) :
    (∀ t : List Char,
        variationFound (lowerStr t) (splitWs (lowerStr t)) (lowerStr v) = false)
    ∧ ∀ (posts : List Post) (team_name : String) (team_variations : List (List Char)),
        filter_posts_by_team posts team_name team_variations
          = filter_posts_by_team posts team_name
              (team_variations.filter (fun u => !(u.any Char.isWhitespace))) :=
  ⟨fun t => variationFound_ws_false v hv t,
   fun posts team_name team_variations =>
     List.filter_congr (fun p _ => postMatches_filter_ws team_variations p.text)⟩

/-- Witness for C9 at the variant "Manchester United" and a text that
spells it out verbatim: the per-variation condition is still false. -/
theorem C9_whitespace_variant_witness :
    variationFound (lowerStr ("Manchester United beat City".toList))
        (splitWs (lowerStr ("Manchester United beat City".toList)))
        (lowerStr ("Manchester United".toList)) = false :=
  (C9_whitespace_variant ("Manchester United".toList) (by decide)).1
    ("Manchester United beat City".toList)

/-- Claim C8: every invocation of the HTTP entry point returns the
success payload with status "success" and HTTP code 200, whatever the
fetch, scoring and entity oracles do. -/
theorem C8_always_success (api : List Char → Option ℚ)
    (entApi : List Char → Except String (List Entity))
    (fetchO : String → List String → Except String (List Post)) :
    (sentiment_tracker api entApi fetchO).1.status = "success"
    ∧ (sentiment_tracker api entApi fetchO).2 = 200 :=
  ⟨rfl, rfl⟩

/-- Claim C5: when at least one article is successfully scored, the
snapshot's `avg_sentiment` is the arithmetic mean of the successfully
computed scores — drawn from the first 7 attributed articles, skipping
those shorter than 30 characters — rounded to 3 decimals; with zero
successfully scored articles, no snapshot is produced. -/
theorem C5_avg_sentiment_mean (api : List Char → Option ℚ)
    (entApi : List Char → Except String (List Entity))
    (team_name : String) (posts : List Post) :
    (clubProcess api entApi team_name posts).map (fun s => s.avg_sentiment)
      = if scoredValues api posts = [] then none
        else some (round3 ((scoredValues api posts).sum
          / ((scoredValues api posts).length : ℚ))) := by
  have hfst := scoreLoop_fst_eq api posts
  simp only [clubProcess, hfst]
  by_cases h : scoredValues api posts = []
  · rw [if_pos h, if_pos h]
    rfl
  · rw [if_neg h, if_neg h]
    rfl

/-- Claim C6: the snapshot's `article_count` equals the number of
successfully computed scores of the run, and that number never exceeds
the number of attributed articles. -/
theorem C6_article_count_inv (api : List Char → Option ℚ)
    (entApi : List Char → Except String (List Entity))
    (team_name : String) (posts : List Post) :
    ((clubProcess api entApi team_name posts).map (fun s => s.article_count)
      = if scoredValues api posts = [] then none
        else some (scoredValues api posts).length)
    ∧ (scoredValues api posts).length ≤ posts.length := by
  constructor
  · have hfst := scoreLoop_fst_eq api posts
    simp only [clubProcess, hfst]
    by_cases h : scoredValues api posts = []
    · rw [if_pos h, if_pos h]
      rfl
    · rw [if_neg h, if_neg h]
      rfl
  · simp only [scoredValues]
    refine le_trans (List.length_filterMap_le _ _) (le_trans (List.length_filter_le _ _) ?_)
    rw [List.length_take]
    exact Nat.min_le_right _ _

/-- Claim C10: the snapshot's `sources` field holds exactly the source
names of the successfully scored articles — not the sources of all
attributed articles. -/
theorem C10_sources_scored (api : List Char → Option ℚ)
    (entApi : List Char → Except String (List Entity))
    (team_name : String) (posts : List Post) (snap : Snapshot)
    (h : clubProcess api entApi team_name posts = some snap) :
    ∀ src, src ∈ snap.sources ↔ src ∈ (scoredPosts api posts).map Post.source := by
  intro src
  simp only [clubProcess] at h
  by_cases hc : (scoreLoop api (posts.take 7) [] []).1 = []
  · rw [if_pos hc] at h
    exact Option.noConfusion h
  · rw [if_neg hc] at h
    injection h with h'
    rw [← h']
    show src ∈ (scoreLoop api (posts.take 7) [] []).2 ↔ _
    rw [scoreLoop_snd_mem api src (posts.take 7) [] []]
    simp [scoredPosts]

section ScenarioEvaluation

attribute [local semireducible] Rat.add Rat.mul Rat.inv Rat.sub Rat.ofScientific

/-- Club name of the spec's worked scenario. -/
def scnTeam : String := "Liverpool"

/-- Variant list of the scenario: Liverpool's variations from
`PREMIER_LEAGUE_TEAMS`. -/
def liverpoolVariants : List (List Char) :=
  ["Liverpool".toList, "LFC".toList, "Reds".toList]

/-- Article text number `k` of the scenario: mentions Liverpool and is
padded to length `10 + k`, comfortably past the 30-character minimum. -/
def scnText (k : ℕ) : List Char := "Liverpool ".toList ++ List.replicate k 'a'

/-- Article number `k` of the scenario. -/
def scnPost (k : ℕ) : Post :=
  { text := scnText k, source := "Google News", published := "", link := "" }

/-- The five fetched articles of the scenario, with texts of lengths
31 through 35. -/
def scnPostsRaw : List Post :=
  [scnPost 21, scnPost 22, scnPost 23, scnPost 24, scnPost 25]

/-- Scoring oracle of the scenario: assigns the spec's five scores
0.2, 0.1, -0.05, 0.3, 0.0 to the five texts (keyed by length). -/
def scnApi (t : List Char) : Option ℚ :=
  if t.length = 31 then some (2 / 10)
  else if t.length = 32 then some (1 / 10)
  else if t.length = 33 then some (-(5 / 100))
  else if t.length = 34 then some (3 / 10)
  else if t.length = 35 then some 0
  else none

/-- Entity oracle of the scenario: no entities returned. -/
def scnEntApi (_ : List Char) : Except String (List Entity) := Except.ok []

/-- The scenario's attributed articles: the fetched articles run through
the team filter with Liverpool's variants (all five are retained). -/
def scnPosts : List Post := filter_posts_by_team scnPostsRaw scnTeam liverpoolVariants

/-- Claim C2, counterexample: on the spec's own scenario — club
Liverpool, variants ["Liverpool","LFC","Reds"], five articles scoring
[0.2, 0.1, -0.05, 0.3, 0.0] — the pipeline's `avg_sentiment` is not the
0.13 the spec predicts (the scores sum to 0.55, so the mean is 0.11). -/
theorem C2_scenario_counterexample :
    (clubProcess scnApi scnEntApi scnTeam scnPosts).map (fun s => s.avg_sentiment)
      ≠ some (13 / 100) := by decide

/-- Claim C2 as amended: on the scenario the snapshot has
`avg_sentiment` = 0.11 and `article_count` = 5 (every fetched article is
retained by the filter). -/
theorem C2_scenario_amended :
    scnPosts = scnPostsRaw
    ∧ (clubProcess scnApi scnEntApi scnTeam scnPosts).map (fun s => s.avg_sentiment)
        = some (11 / 100)
    ∧ (clubProcess scnApi scnEntApi scnTeam scnPosts).map (fun s => s.article_count)
        = some 5 := by decide

/-- The snapshot the pipeline writes on the scenario input. -/
def scnSnap : Snapshot :=
  { team := scnTeam,
    avg_sentiment := 11 / 100,
    article_count := 5,
    sources := ["Google News"],
    key_topics := [],
    league := "Premier League",
    data_type := "News Sentiment" }

/-- Witness for C10 on the scenario run: the source-set equivalence,
instantiated at the one source name in play. -/
theorem C10_sources_scored_witness :
    "Google News" ∈ scnSnap.sources
      ↔ "Google News" ∈ (scoredPosts scnApi scnPosts).map Post.source :=
  C10_sources_scored scnApi scnEntApi scnTeam scnPosts scnSnap (by decide) "Google News"

end ScenarioEvaluation

/-- Boolean form of the entity-loop acceptance condition of
`main.generate_team_summary`: name (lowercased) outside the denylist,
name length at least 4, salience above 0.02. -/
def qualifies (gset : List (List Char)) (e : Entity) : Bool :=
  decide (lowerStr e.name ∉ gset) && decide (4 ≤ e.name.length)
    && decide (1 / 50 < e.salience)

/-- Unfolding of one step of the entity loop with the `let` expanded. -/
theorem entLoop_cons (gset : List (List Char)) (e : Entity) (es : List Entity)
    (acc : List Topic) :
    entLoop gset (e :: es) acc =
      if lowerStr e.name ∈ gset ∨ e.name.length < 4 then entLoop gset es acc
      else if 1 / 50 < e.salience then
        (if 3 ≤ (acc ++ [mkTopic e]).length then acc ++ [mkTopic e]
         else entLoop gset es (acc ++ [mkTopic e]))
      else (if 3 ≤ acc.length then acc else entLoop gset es acc) := by
  rw [entLoop]
  by_cases hsal : 1 / 50 < e.salience
  · simp only [if_pos hsal]
  · simp only [if_neg hsal]

/-- The entity loop, started below the cap, appends the first qualifying
entities in extractor order, stopping once the accumulator reaches 3. -/
theorem entLoop_eq (gset : List (List Char)) : ∀ (es : List Entity) (acc : List Topic),
    acc.length < 3 →
    entLoop gset es acc
      = acc ++ ((es.filter (qualifies gset)).take (3 - acc.length)).map mkTopic
  | [], acc, hacc => by simp [entLoop]
  | e :: es, acc, hacc => by
    rw [entLoop_cons]
    by_cases hskip : lowerStr e.name ∈ gset ∨ e.name.length < 4
    · rw [if_pos hskip, entLoop_eq gset es acc hacc]
      have hq : qualifies gset e = false := by
        unfold qualifies
        rcases hskip with h | h
        · rw [decide_eq_false (fun hn => hn h), Bool.false_and, Bool.false_and]
        · have h2 : ¬ (4 ≤ e.name.length) := by omega
          rw [decide_eq_false h2, Bool.and_false, Bool.false_and]
      simp [List.filter_cons, hq]
    · rw [if_neg hskip]
      push_neg at hskip
      obtain ⟨hmem, hlen⟩ := hskip
      by_cases hsal : 1 / 50 < e.salience
      · rw [if_pos hsal]
        have hq : qualifies gset e = true := by
          unfold qualifies
          rw [decide_eq_true hmem, decide_eq_true hlen, decide_eq_true hsal]
          rfl
        by_cases h3 : 3 ≤ (acc ++ [mkTopic e]).length
        · rw [if_pos h3]
          have hl : acc.length = 2 := by
            simp only [List.length_append, List.length_cons, List.length_nil] at h3
            omega
          have ht : 3 - acc.length = 1 := by omega
          simp [List.filter_cons, hq, ht]
        · rw [if_neg h3]
          have hl : (acc ++ [mkTopic e]).length < 3 := by omega
          rw [entLoop_eq gset es (acc ++ [mkTopic e]) hl]
          have ht : 3 - acc.length = (3 - (acc ++ [mkTopic e]).length) + 1 := by
            simp only [List.length_append, List.length_cons, List.length_nil]
            simp only [List.length_append, List.length_cons, List.length_nil] at h3
            omega
          simp [List.filter_cons, hq, ht, List.take_succ_cons]
      · rw [if_neg hsal]
        have hq : qualifies gset e = false := by
          unfold qualifies
          rw [decide_eq_false hsal, Bool.and_false]
        have h3 : ¬ (3 ≤ acc.length) := by omega
        rw [if_neg h3, entLoop_eq gset es acc hacc]
        simp [List.filter_cons, hq]

/-- Claim C7 as amended: `key_topics` always has at most 3 entries; each
entry's lowercased name is outside the code's denylist (the club's own
lowercased canonical name plus the fixed literal list — not every
variant, and not every other club), has length at least 4, and carries a
salience above 0.02 rounded to 3 decimals; the entries are the first
qualifying entities from the first 10 the extractor returns, in order
(and an extractor failure yields the empty list).  The source performs
no URL-like or purely-numeric exclusion. -/
theorem C7_key_topics_amended (posts : List Post) (team_name : String)
    (entApi : List Char → Except String (List Entity)) :
    (generate_team_summary posts team_name entApi).length ≤ 3
    ∧ (∀ t ∈ generate_team_summary posts team_name entApi,
        lowerStr t.name ∉ genericTerms team_name
        ∧ 4 ≤ t.name.length
        ∧ ∃ s, 1 / 50 < s ∧ t.salience = round3 s)
    ∧ ∀ ents, entApi (entityInput posts) = Except.ok ents →
        generate_team_summary posts team_name entApi
          = (((ents.take 10).filter (qualifies (genericTerms team_name))).take 3).map
              mkTopic := by
  cases hE : entApi (entityInput posts) with
  | error err =>
    refine ⟨?_, ?_, ?_⟩
    · simp [generate_team_summary, hE]
    · simp [generate_team_summary, hE]
    · intro ents hE'
      exact Except.noConfusion hE'
  | ok ents =>
    have hmain : generate_team_summary posts team_name entApi
        = (((ents.take 10).filter (qualifies (genericTerms team_name))).take 3).map
            mkTopic := by
      simp only [generate_team_summary, hE]
      rw [entLoop_eq (genericTerms team_name) (ents.take 10) [] (by simp)]
      simp
    refine ⟨?_, ?_, ?_⟩
    · rw [hmain]
      simp only [List.length_map, List.length_take]
      exact Nat.min_le_left _ _
    · intro t ht
      rw [hmain] at ht
      simp only [List.mem_map] at ht
      obtain ⟨e, he, rfl⟩ := ht
      have he' := List.mem_of_mem_take he
      have hq := (List.mem_filter.mp he').2
      simp only [qualifies, Bool.and_eq_true, decide_eq_true_eq] at hq
      exact ⟨hq.1.1, hq.1.2, e.salience, hq.2, rfl⟩
    · intro ents' hE'
      injection hE' with h
      rw [← h]
      exact hmain

section CounterexampleEvaluation

attribute [local semireducible] Rat.add Rat.mul Rat.inv Rat.sub Rat.ofScientific

/-- Entity with a purely numeric name, as an extractor could return it. -/
def cexE1 : Entity := { name := "1234".toList, type_ := "NUMBER", salience := 1 / 2 }

/-- Entity named after another club (Everton, while Liverpool is being
processed). -/
def cexE2 : Entity := { name := "Everton".toList, type_ := "ORGANIZATION", salience := 1 / 2 }

/-- Entity named by one of the processed club's own variants ("Reds"). -/
def cexE3 : Entity := { name := "Reds".toList, type_ := "ORGANIZATION", salience := 1 / 2 }

/-- The extractor output used against claim C7. -/
def cexEntities : List Entity := [cexE1, cexE2, cexE3]

/-- Entity oracle returning `cexEntities`. -/
def cexEntApi (_ : List Char) : Except String (List Entity) := Except.ok cexEntities

/-- Formalises the spec's "purely numeric" wording for claim C7: a
nonempty name consisting solely of digits. -/
def specPurelyNumeric (s : List Char) : Bool := !s.isEmpty && s.all Char.isDigit

/-- Claim C7, counterexample: processing Liverpool with entities named
"1234", "Everton" and "Reds" (salience 0.5 each), all three land in
`key_topics` — a purely numeric name, another club's common name, and
one of the club's own variants, each of which the claim says is
excluded. -/
theorem C7_key_topics_counterexample :
    ((generate_team_summary [] scnTeam cexEntApi).map (fun t => t.name)
        = ["1234".toList, "Everton".toList, "Reds".toList])
    ∧ specPurelyNumeric ("1234".toList) = true
    ∧ (∃ tv ∈ PREMIER_LEAGUE_TEAMS, tv.1 ≠ scnTeam ∧ "Everton" ∈ tv.2)
    ∧ (∃ tv ∈ PREMIER_LEAGUE_TEAMS, tv.1 = scnTeam ∧ "Reds" ∈ tv.2) := by decide

/-- Witness for the amended C7 on the counterexample run: the bound, the
per-entry facts at the first entry, and the order equation. -/
theorem C7_key_topics_amended_witness :
    (generate_team_summary [] scnTeam cexEntApi).length ≤ 3
    ∧ (lowerStr (mkTopic cexE1).name ∉ genericTerms scnTeam
        ∧ 4 ≤ (mkTopic cexE1).name.length
        ∧ ∃ s, 1 / 50 < s ∧ (mkTopic cexE1).salience = round3 s)
    ∧ generate_team_summary [] scnTeam cexEntApi
        = (((cexEntities.take 10).filter (qualifies (genericTerms scnTeam))).take 3).map
            mkTopic :=
  ⟨(C7_key_topics_amended [] scnTeam cexEntApi).1,
   (C7_key_topics_amended [] scnTeam cexEntApi).2.1 (mkTopic cexE1) (by decide),
   (C7_key_topics_amended [] scnTeam cexEntApi).2.2 cexEntities rfl⟩

/-- Claim C1, counterexample: modelled from the spec, a backfill run
invoked at hour H = 1 with k = 0 elapsed hours writes documents for
every hour from midnight through the current hour — 2 documents, not
the k + 1 = 1 the claim's count predicts. -/
theorem C1_backfill_counterexample :
    (backfillDocs 0 (fun _ => 0) (1 + 0)).length ≠ 0 + 1 := by decide

/-- Claim C1 as amended (modelled from the spec): a backfill run at
current hour H + k writes exactly H + k + 1 documents per processed
club, with timestamps exactly the hour boundaries from midnight through
the current hour, each sentiment within ±0.03 of the base average. -/
theorem C1_backfill_amended (base : ℚ) (perturb : ℕ → ℚ) (H k : ℕ)
    (hp : ∀ h, -(3 / 100) ≤ perturb h ∧ perturb h ≤ 3 / 100) :
    (backfillDocs base perturb (H + k)).length = H + k + 1
    ∧ (backfillDocs base perturb (H + k)).map Prod.fst
        = (List.range (H + k + 1)).map (fun h => h * 3600)
    ∧ ∀ d ∈ backfillDocs base perturb (H + k),
        d.1 % 3600 = 0 ∧ -(3 / 100) ≤ d.2 - base ∧ d.2 - base ≤ 3 / 100 := by
  refine ⟨by simp [backfillDocs], ?_, ?_⟩
  · simp only [backfillDocs, List.map_map]
    rfl
  · intro d hd
    simp only [backfillDocs, List.mem_map, List.mem_range] at hd
    obtain ⟨h, hh, rfl⟩ := hd
    dsimp only
    refine ⟨Nat.mul_mod_left h 3600, ?_, ?_⟩
    · have hb : base + perturb h - base = perturb h := by ring
      rw [hb]
      exact (hp h).1
    · have hb : base + perturb h - base = perturb h := by ring
      rw [hb]
      exact (hp h).2

/-- Witness for the amended C1 at base 0.5, constant perturbation 0.01,
H = 1, k = 2: the count and the per-document facts at the hour-1
document. -/
theorem C1_backfill_amended_witness :
    (backfillDocs (1 / 2) (fun _ => 1 / 100) (1 + 2)).length = 1 + 2 + 1
    ∧ ((3600, (1 : ℚ) / 2 + 1 / 100).1 % 3600 = 0
        ∧ -(3 / 100) ≤ (3600, (1 : ℚ) / 2 + 1 / 100).2 - 1 / 2
        ∧ (3600, (1 : ℚ) / 2 + 1 / 100).2 - 1 / 2 ≤ 3 / 100) := by
  have hp : ∀ _ : ℕ, -(3 / 100 : ℚ) ≤ 1 / 100 ∧ (1 / 100 : ℚ) ≤ 3 / 100 :=
    fun _ => ⟨by norm_num, by norm_num⟩
  exact ⟨(C1_backfill_amended (1 / 2) (fun _ => 1 / 100) 1 2 hp).1,
    (C1_backfill_amended (1 / 2) (fun _ => 1 / 100) 1 2 hp).2.2
      (3600, 1 / 2 + 1 / 100) (by decide)⟩

end CounterexampleEvaluation

end PLSent
